import Mathlib

/-!
# Verification of the tesla-video-player media pipeline

Shallow embedding of the media-pipeline logic of the repository
`AgnusSOCO/tesla-video-player`, together with proofs of the testable
properties stated in its specification.

The repository contains two iterations of the WebCodecs-based player:

* `src/client/src/components/WebCodecsVideoPlayer.tsx` — the current player
  (binary-search frame selection, single pre-decoded audio buffer); embedded
  below in namespace `WC`.
* `src/unnamed/part_005` — the earlier player variant (linear-scan frame
  selection, streaming audio scheduled chunk by chunk); embedded below in
  namespace `V5`.

Conventions of the embedding:

* Video frame timestamps are microsecond integers (`Int`); the selection
  functions read only `frame.timestamp`, so for the selection claims a frame
  buffer is embedded as its list of timestamps (`List Int`), ordered as the
  JavaScript array `frameBufferRef.current` is.  Where the identity of a
  frame matters (release tracking), a frame is a `Frame` record with an id.
* Wall-clock / audio-clock quantities (`performance.now()`,
  `audioContext.currentTime`, seconds, `mediaStartTimeRef` in microseconds)
  are embedded as exact rationals (`ℚ`); the code performs only +, -, *, /,
  min, max and comparisons on them.
* JavaScript array mutation (`push`, `shift`, `splice`) becomes pure list
  operations; `frame.close()` calls are recorded in a ghost `closed` log so
  that resource-release claims are statements about the log.
* While loops are embedded as structural `fuel` recursion so that they
  reduce in the kernel; every caller passes fuel at least the loop's
  iteration count, and the loop lemmas carry the corresponding
  `… ≤ fuel` hypothesis.
-/

namespace TeslaPlayer

/-- A decoded video frame: an identity (to track individual `close()` calls)
and its presentation timestamp in microseconds, the only fields the player
reads. -/
structure Frame where
  id : Nat
  ts : Int
deriving DecidableEq, Repr

/-- An encoded sample as handed out by `MP4Demuxer.getNextChunk()`:
`chunk.type === "key"` is the only field `fillFrameBuffer` inspects, plus an
identity so that "which chunks were submitted" is meaningful. -/
structure Chunk where
  key : Bool
  id : Nat
deriving DecidableEq, Repr

/-- `buf[i].timestamp` — JavaScript indexing into the frame buffer.  All
indices used by the embedded loops are proven in range, so the default value
is never read by them. -/
def tsAt (buf : List Int) (i : Nat) : Int :=
  buf.getD i 0

/-- Timestamps in the frame buffer are strictly increasing (decoded frames
arrive in presentation order). -/
def StrictlyIncreasing (buf : List Int) : Prop :=
  ∀ j, j < buf.length → ∀ i, i < j → tsAt buf i < tsAt buf j

instance (buf : List Int) : Decidable (StrictlyIncreasing buf) :=
  inferInstanceAs (Decidable (∀ j, j < buf.length → ∀ i, i < j → tsAt buf i < tsAt buf j))

/-- The keyframe gate of `fillFrameBuffer` applied to one chunk
(WebCodecsVideoPlayer.tsx lines 441-451; identically part_005 lines
337-347): while the needs-keyframe flag is set, a delta chunk is skipped
(`continue`) and a key chunk clears the flag and is submitted; with the flag
clear every chunk is submitted.  Returns (new flag, submitted chunk if
any). -/
def fillStep (needsKeyframe : Bool) (c : Chunk) : Bool × Option Chunk :=
  if needsKeyframe then
    if c.key then (false, some c) else (true, none)
  else (false, some c)

/-- The submission loop of `fillFrameBuffer` over the sequence of chunks the
demuxer hands out before one of the loop's exit conditions (target buffer
size reached, decoder queue full, end of stream, teardown) stops it — the
exit conditions only truncate this sequence, which the statements quantify
over.  Returns the final needs-keyframe flag and the chunks actually passed
to `videoDecoderRef.current.decode`. -/
def fillRun : Bool → List Chunk → Bool × List Chunk
  | nk, [] => (nk, [])
  | nk, c :: cs =>
    match fillStep nk c with
    | (nk1, none) => fillRun nk1 cs
    | (nk1, some c1) =>
      let r := fillRun nk1 cs
      (r.1, c1 :: r.2)

/-- Shared mutable state of a player component: the refs of
WebCodecsVideoPlayer.tsx (and the matching refs of part_005), restricted to
what `play` / `pause` / `handleSeek` read and write, plus ghost logs of
`close()` calls and of the last `seek` instruction given to each demuxer. -/
structure Player where
  /-- `isPlayingRef.current` -/
  isPlaying : Bool
  /-- `audioContextRef.current !== null` -/
  hasAudio : Bool
  /-- `fullAudioBufferRef.current !== null` (WebCodecsVideoPlayer only) -/
  hasAudioBuf : Bool
  /-- `fullAudioBufferRef.current.duration`, seconds -/
  audioBufDuration : ℚ
  /-- `frameBufferRef.current`, as frame timestamps in microseconds -/
  frameBuffer : List Int
  /-- ghost: timestamps of video frames that have been `close()`d -/
  closedFrames : List Int
  /-- `audioBufferQueueRef.current`, as `AudioData` identities -/
  audioQueue : List Nat
  /-- ghost: queued `AudioData` that have been `close()`d -/
  closedAudio : List Nat
  /-- `mediaStartTimeRef.current`, microseconds -/
  mediaStartTime : ℚ
  /-- `state.currentTime`, seconds (the observable the UI reads) -/
  currentTime : ℚ
  /-- `needsKeyframeRef.current` -/
  needsKeyframe : Bool
  /-- ghost: argument of the last `videoDemuxerRef.current?.seek(...)` -/
  videoSeekPos : Option ℚ
  /-- ghost: argument of the last `audioDemuxerRef.current?.seek(...)` -/
  audioSeekPos : Option ℚ
  /-- `audioStartTimeRef.current`, audio-clock seconds -/
  audioStartTime : ℚ
  /-- `mediaTimeOffsetRef.current`, seconds -/
  mediaTimeOffset : ℚ
  /-- `playbackStartTimeRef.current`, `performance.now()` milliseconds -/
  playbackStartTime : ℚ
  /-- `nextAudioTimeRef.current` (part_005 only), audio-clock seconds -/
  nextAudioTime : ℚ
deriving DecidableEq

namespace WC

/- Performance tuning constants of WebCodecsVideoPlayer.tsx (lines 58-63). -/

def FRAME_BUFFER_TARGET_SIZE : Nat := 60

def FRAME_BUFFER_MAX_SIZE : Nat := 120

def FRAME_DROP_THRESHOLD : Int := 300000

/-- The binary-search loop of `chooseFrame` (WebCodecsVideoPlayer.tsx lines
526-549).  `left`/`rightEx` are the JavaScript `left` and `right + 1`: the
source keeps a signed inclusive bound `right` that can reach `-1`; using the
exclusive bound keeps the indices in `Nat` with `left <= right ↔ left <
rightEx`, and `mid = (left + right) >>> 1 = (left + rightEx - 1) / 2` (all
quantities are non-negative and far below 2^32).  On `delta < bestDelta` the
source updates `bestIndex`/`bestDelta` before branching on the comparison
with the target; an exact match breaks out of the loop returning `mid`.
Each iteration shrinks the interval, so any `fuel` of at least
`rightEx - left` (the caller passes `buf.length`) gives the loop's exit
behavior, which `bsLoop_min` makes precise via its `rightEx - left ≤ fuel`
hypothesis. -/
def bsLoop (buf : List Int) (t : Int) :
    (fuel left rightEx bestIndex : Nat) → (bestDelta : Int) → Nat
  | 0, _, _, bestIndex, _ => bestIndex
  | fuel + 1, left, rightEx, bestIndex, bestDelta =>
    if left < rightEx then
      if tsAt buf ((left + rightEx - 1) / 2) < t then
        bsLoop buf t fuel ((left + rightEx - 1) / 2 + 1) rightEx
          (if |t - tsAt buf ((left + rightEx - 1) / 2)| < bestDelta then
            (left + rightEx - 1) / 2 else bestIndex)
          (if |t - tsAt buf ((left + rightEx - 1) / 2)| < bestDelta then
            |t - tsAt buf ((left + rightEx - 1) / 2)| else bestDelta)
      else if t < tsAt buf ((left + rightEx - 1) / 2) then
        bsLoop buf t fuel left ((left + rightEx - 1) / 2)
          (if |t - tsAt buf ((left + rightEx - 1) / 2)| < bestDelta then
            (left + rightEx - 1) / 2 else bestIndex)
          (if |t - tsAt buf ((left + rightEx - 1) / 2)| < bestDelta then
            |t - tsAt buf ((left + rightEx - 1) / 2)| else bestDelta)
      else
        (left + rightEx - 1) / 2
    else bestIndex

/-- Index selected by `chooseFrame` on a non-empty buffer: the source
initializes `left = 0`, `right = length - 1`, `bestIndex = 0`,
`bestDelta = |target - buffer[0].timestamp|`. -/
def chooseFrameIdx (buf : List Int) (t : Int) : Nat :=
  bsLoop buf t buf.length 0 buf.length 0 |t - tsAt buf 0|

/-- `chooseFrame(targetTimestamp)` of WebCodecsVideoPlayer.tsx (lines
520-561): returns `null` on an empty buffer; otherwise binary-searches the
closest frame, closes and `splice`s away every frame before it, and returns
`buffer[0] || null` of the remaining buffer.  Result: (returned frame's
timestamp, frames closed as stale, remaining buffer). -/
def chooseFrame (buf : List Int) (t : Int) : Option Int × List Int × List Int :=
  if buf.isEmpty then (none, [], buf)
  else
    ((buf.drop (chooseFrameIdx buf t)).head?,
     buf.take (chooseFrameIdx buf t),
     buf.drop (chooseFrameIdx buf t))

/-- The frame-buffer-related state of WebCodecsVideoPlayer: the buffer, the
dropped-frame counter, `lastRenderedTimestampRef`, and ghost logs of every
frame pushed by the decoder output callback (`inserted`) and of every
`frame.close()` call (`closed`). -/
structure PlayerBuf where
  buffer : List Frame
  dropped : Nat
  closed : List Frame
  inserted : List Frame
  lastRendered : Int
deriving DecidableEq, Repr

/-- Initial state: empty buffer, `droppedFramesRef = 0`,
`lastRenderedTimestampRef = -1`. -/
def initBuf : PlayerBuf :=
  { buffer := [], dropped := 0, closed := [], inserted := [], lastRendered := -1 }

/-- The `VideoDecoder` output callback (WebCodecsVideoPlayer.tsx lines
201-214): if the buffer already holds `FRAME_BUFFER_MAX_SIZE` frames it
`shift()`s the oldest frame (`buffer.take 1` / `buffer.tail`), closes it and
counts it as dropped (`shift()` on an empty array yields `undefined` and the
`if (oldFrame)` guard then skips the close and the count — the
`min buffer.length 1` summand); then the new frame is pushed. -/
def decoderOutput (s : PlayerBuf) (f : Frame) : PlayerBuf :=
  if FRAME_BUFFER_MAX_SIZE ≤ s.buffer.length then
    { s with
      buffer := s.buffer.tail ++ [f],
      closed := s.buffer.take 1 ++ s.closed,
      dropped := s.dropped + min s.buffer.length 1,
      inserted := s.inserted ++ [f] }
  else
    { s with buffer := s.buffer ++ [f], inserted := s.inserted ++ [f] }

/-- Length of the prefix of frames further than `FRAME_DROP_THRESHOLD`
behind the clock (the stale-drop scan of `renderLoop`, lines 589-597). -/
def stalePrefixLen (now : Int) : List Frame → Nat
  | [] => 0
  | f :: rest =>
    if FRAME_DROP_THRESHOLD < now - f.ts then stalePrefixLen now rest + 1 else 0

/-- One iteration of `renderLoop` (WebCodecsVideoPlayer.tsx lines 584-628)
at media time `now` (microseconds): first the stale-drop loop — its
`dropCount < buffer.length - 1` guard never drops the final frame, hence
the `min … (length - 1)` — closes and splices off `dropCount` frames and
adds them to the dropped counter; then the head frame is displayed if its
time has come (16 ms tolerance) and it is not the frame already on screen,
in which case it is `shift()`ed off, closed, and recorded as last
rendered. -/
def renderTick (now : Int) (s : PlayerBuf) : PlayerBuf :=
  let dropCount := min (stalePrefixLen now s.buffer) (s.buffer.length - 1)
  let s1 : PlayerBuf :=
    { s with
      buffer := s.buffer.drop dropCount,
      closed := s.buffer.take dropCount ++ s.closed,
      dropped := s.dropped + dropCount }
  match s1.buffer with
  | [] => s1
  | f :: rest =>
    if f.ts - 16000 ≤ now then
      if f.ts ≠ s1.lastRendered then
        { s1 with buffer := rest, closed := f :: s1.closed, lastRendered := f.ts }
      else s1
    else s1

/-- Closing and emptying the whole frame buffer: the loop of `handleSeek`
(lines 812-815) and of the `useEffect` cleanup (lines 925-932). -/
def clearFrames (s : PlayerBuf) : PlayerBuf :=
  { s with buffer := [], closed := s.buffer ++ s.closed }

/-- The events that remove frames from or add frames to the frame buffer. -/
inductive BufOp where
  | output (f : Frame)
  | render (now : Int)
  | seekClear
  | teardown
deriving DecidableEq, Repr

def applyOp (s : PlayerBuf) : BufOp → PlayerBuf
  | .output f => decoderOutput s f
  | .render now => renderTick now s
  | .seekClear => clearFrames s
  | .teardown => clearFrames s

def runOps (ops : List BufOp) : PlayerBuf :=
  ops.foldl applyOp initBuf

/-- `pause()` of WebCodecsVideoPlayer.tsx (lines 766-793): stop playing and
fold the elapsed clock time into `mediaStartTimeRef` — from the audio clock
when an `AudioContext` exists, otherwise from `performance.now()`.
`nowPerf` is `performance.now()` in ms, `nowAudio` is
`audioContext.currentTime` in seconds. -/
def pause (nowPerf nowAudio : ℚ) (s : Player) : Player :=
  let s1 := { s with isPlaying := false }
  if s1.hasAudio then
    { s1 with
      mediaStartTime := (s1.mediaTimeOffset + (nowAudio - s1.audioStartTime)) * 1000000 }
  else
    { s1 with
      mediaStartTime := s1.mediaStartTime + (nowPerf - s1.playbackStartTime) * 1000 }

/-- `play()` of WebCodecsVideoPlayer.tsx (lines 690-764), restricted to its
effect on the playing flag and the clock references (the buffer pre-fill
and the audio pre-decode do not write any of these fields):
`startOffset = mediaStartTimeRef / 1e6`; with an audio context the clock
reference is re-anchored and, when the buffer's first frame is ahead of the
offset (or the offset is 0), the offset and `mediaStartTimeRef` jump to
that frame's timestamp; finally `startAudioPlayback(mediaTimeOffset)` (lines
372-401), run only when the pre-decoded audio buffer exists, re-anchors the
audio clock and clamps the offset into `[0, fullAudioBuffer.duration]`. -/
def play (nowPerf nowAudio : ℚ) (s : Player) : Player :=
  if s.isPlaying then s
  else
    let startOffset := s.mediaStartTime / 1000000
    let s1 := { s with isPlaying := true }
    let s2 :=
      if s1.hasAudio then
        let s1a := { s1 with audioStartTime := nowAudio, mediaTimeOffset := startOffset }
        match s1a.frameBuffer.head? with
        | some f0 =>
          if s1a.mediaTimeOffset = 0 ∨ s1a.mediaTimeOffset < (f0 : ℚ) / 1000000 then
            { s1a with
              mediaTimeOffset := (f0 : ℚ) / 1000000,
              mediaStartTime := (f0 : ℚ) / 1000000 * 1000000 }
          else s1a
        | none => s1a
      else s1
    let s3 := { s2 with playbackStartTime := nowPerf }
    if s3.hasAudioBuf then
      { s3 with
        audioStartTime := nowAudio,
        mediaTimeOffset := max 0 (min s3.mediaTimeOffset s3.audioBufDuration) }
    else s3

/-- `handleSeek` of WebCodecsVideoPlayer.tsx (lines 803-836): pause if
playing; close and clear every buffered video frame; set
`mediaStartTimeRef := newTime * 1e6` and the observable `currentTime`;
set the needs-keyframe flag; seek only the video demuxer (the audio is
fully pre-decoded, so the audio queue is left alone and the audio demuxer
is not seeked); after the refill (`fillFrameBuffer`, which writes none of
these fields), play again if it was playing. -/
def handleSeek (nowPerf nowAudio : ℚ) (s : Player) (newTime : ℚ) : Player :=
  let wasPlaying := s.isPlaying
  let s1 := if wasPlaying then pause nowPerf nowAudio s else s
  let s2 := { s1 with
    closedFrames := s1.frameBuffer ++ s1.closedFrames,
    frameBuffer := [],
    mediaStartTime := newTime * 1000000,
    currentTime := newTime,
    needsKeyframe := true,
    videoSeekPos := some newTime }
  if wasPlaying then play nowPerf nowAudio s2 else s2

/-- The outcomes of `initializePlayer` (WebCodecsVideoPlayer.tsx lines
156-337) that end in the `catch` with an error state. -/
inductive InitError where
  | webCodecsUnavailable
  | canvasUnavailable
  | demuxFailed
  | unsupportedCodec
deriving DecidableEq, Repr

/-- The control flow of `initializePlayer` (lines 156-337): the WebCodecs
check, the canvas checks, the video demuxer initialization, then — after
the `VideoDecoder` object is created but before anything is decoded — the
`VideoDecoder.isConfigSupported` probe, whose failure throws
`Video codec not supported` straight to the `catch`; only after
configuration (audio setup failures are caught and swallowed, lines
320-322) does the final `fillFrameBuffer()` submit chunks.  Result: the
outcome and the list of chunks submitted to the video decoder. -/
def initPlayer (webCodecsOk canvasOk demuxOk videoSupported : Bool)
    (videoChunks : List Chunk) : Except InitError Unit × List Chunk :=
  if !webCodecsOk then (Except.error InitError.webCodecsUnavailable, [])
  else if !canvasOk then (Except.error InitError.canvasUnavailable, [])
  else if !demuxOk then (Except.error InitError.demuxFailed, [])
  else if !videoSupported then (Except.error InitError.unsupportedCodec, [])
  else (Except.ok (), (fillRun true videoChunks).2)

end WC

namespace V5

/-- The scan loop of `chooseFrame` in part_005 (lines 405-418): `i` walks
forward from 0; `minD = none` embeds the initial `Number.MAX_VALUE`
sentinel (every delta that actually occurs compares strictly below it) and
`fIdx = none` embeds `frameIndex = -1`.  The loop updates its best on a
strict improvement of the delta and `break`s at the first non-improvement.
Structural `fuel` recursion as for `WC.bsLoop`; any fuel of at least
`buf.length - i` (the caller passes `buf.length`) gives the loop's exit
behavior. -/
def scanLoop (buf : List Int) (t : Int) :
    (fuel i : Nat) → (minD : Option Int) → (fIdx : Option Nat) → Option Nat
  | 0, _, _, fIdx => fIdx
  | fuel + 1, i, minD, fIdx =>
    if i < buf.length then
      if minD.all (fun m => decide (|t - tsAt buf i| < m)) then
        scanLoop buf t fuel (i + 1) (some |t - tsAt buf i|) (some i)
      else fIdx
    else fIdx

/-- `chooseFrame(targetTimestamp)` of part_005 (lines 402-428): linear scan
with early exit, then the stale frames before the selected index are shifted
off and closed, and `frameBufferRef.current[0] || null` is returned.
Result: (returned frame's timestamp, frames closed as stale, remaining
buffer). -/
def chooseFrame (buf : List Int) (t : Int) : Option Int × List Int × List Int :=
  if buf.isEmpty then (none, [], buf)
  else
    match scanLoop buf t buf.length 0 none none with
    | none => (none, [], buf)
    | some i => ((buf.drop i).head?, buf.take i, buf.drop i)

/-- `pause()` of part_005 (lines 517-538) — the same clock fold as
`WC.pause`. -/
def pause (nowPerf nowAudio : ℚ) (s : Player) : Player :=
  let s1 := { s with isPlaying := false }
  if s1.hasAudio then
    { s1 with
      mediaStartTime := (s1.mediaTimeOffset + (nowAudio - s1.audioStartTime)) * 1000000 }
  else
    { s1 with
      mediaStartTime := s1.mediaStartTime + (nowPerf - s1.playbackStartTime) * 1000 }

/-- `play()` of part_005 (lines 490-515): set playing; with an audio
context re-anchor `audioStartTimeRef`/`mediaTimeOffsetRef` from the saved
`mediaStartTimeRef` (no first-frame adjustment, no clamping in this
variant); `nextAudioTimeRef := audioContext.currentTime || 0`;
`playbackStartTimeRef := performance.now()`. -/
def play (nowPerf nowAudio : ℚ) (s : Player) : Player :=
  if s.isPlaying then s
  else
    let s1 := { s with isPlaying := true }
    let s2 :=
      if s1.hasAudio then
        { s1 with audioStartTime := nowAudio, mediaTimeOffset := s1.mediaStartTime / 1000000 }
      else s1
    { s2 with
      nextAudioTime := if s2.hasAudio then nowAudio else 0,
      playbackStartTime := nowPerf }

/-- `handleSeek` of part_005 (lines 548-583): pause if playing; close and
clear every buffered video frame and every queued `AudioData`; set
`mediaStartTimeRef := newTime * 1e6` and the observable `currentTime`; set
the needs-keyframe flag; seek both the video and the audio demuxer; after
the refill, play again if it was playing. -/
def handleSeek (nowPerf nowAudio : ℚ) (s : Player) (newTime : ℚ) : Player :=
  let wasPlaying := s.isPlaying
  let s1 := if wasPlaying then pause nowPerf nowAudio s else s
  let s2 := { s1 with
    closedFrames := s1.frameBuffer ++ s1.closedFrames,
    frameBuffer := [],
    closedAudio := s1.audioQueue ++ s1.closedAudio,
    audioQueue := [],
    mediaStartTime := newTime * 1000000,
    currentTime := newTime,
    needsKeyframe := true,
    videoSeekPos := some newTime,
    audioSeekPos := some newTime }
  if wasPlaying then play nowPerf nowAudio s2 else s2

/-- The audio-scheduling state of part_005: the running next-output-time
cursor and a ghost log of the `(startTime, duration)` pairs passed to
`source.start`. -/
structure AudioSched where
  nextAudioTime : ℚ
  scheduled : List (ℚ × ℚ)
deriving DecidableEq, Repr

/-- One iteration of the while loop of `scheduleAudioPlayback` (part_005
lines 273-309) on a dequeued `AudioData` of duration `dur`:
`startTime = max(nextAudioTimeRef.current, audioContext.currentTime)`;
`source.start(startTime)`; `nextAudioTimeRef := startTime +
audioBuffer.duration`. -/
def scheduleChunk (now : ℚ) (s : AudioSched) (dur : ℚ) : AudioSched :=
  { nextAudioTime := max s.nextAudioTime now + dur,
    scheduled := s.scheduled ++ [(max s.nextAudioTime now, dur)] }

/-- `scheduleAudioPlayback` (part_005 lines 264-310): drain the queue,
scheduling each chunk in turn.  `now` is the audio clock reading during the
(synchronous) drain; `durs` the durations of the queued chunks in order. -/
def scheduleAudioPlayback (now : ℚ) (s : AudioSched) (durs : List ℚ) : AudioSched :=
  durs.foldl (scheduleChunk now) s

/-- The schedule the specification's words describe: chunks laid out
back-to-back from the cursor, each start equal to the previous chunk's end.
Used to compare `scheduleAudioPlayback` against the spec. -/
def contiguousFrom : ℚ → List ℚ → List (ℚ × ℚ)
  | _, [] => []
  | c, d :: ds => (c, d) :: contiguousFrom (c + d) ds

end V5

/-- Both `chooseFrame` implementations remove a prefix of the buffer and
return the head of the remaining suffix: the shape every selection claim
relies on. -/
def SelectsSuffix (choose : List Int → Int → Option Int × List Int × List Int) : Prop :=
  ∀ buf t, StrictlyIncreasing buf →
    ∃ k, choose buf t = ((buf.drop k).head?, buf.take k, buf.drop k)

/-- A render loop calling a selection function once per tick: the sequence
of frames returned across a sequence of target times, starting from a given
buffer.  `null` returns (empty buffer) contribute nothing. -/
def selectSeq (choose : List Int → Int → Option Int × List Int × List Int)
    (buf : List Int) : List Int → List Int
  | [] => []
  | t :: ts =>
    match choose buf t with
    | (none, _, b) => selectSeq choose b ts
    | (some f, _, b) => f :: selectSeq choose b ts

/-! ## Helper lemmas -/

lemma StrictlyIncreasing.mono {buf : List Int} (hs : StrictlyIncreasing buf)
    {i j : Nat} (hij : i ≤ j) (hj : j < buf.length) : tsAt buf i ≤ tsAt buf j := by
  rcases Nat.lt_or_ge i j with h | h
  · exact le_of_lt (hs j hj i h)
  · have : i = j := le_antisymm (by omega) h
    simp [this]

namespace WC

/-- Invariant of the binary-search loop: the running best is the true best
over every index already excluded from `[left, rightEx)`, so at exit the
result is a global minimizer of the absolute timestamp delta.  Fuel-style
strong induction on the width of the interval. -/
lemma bsLoop_min (buf : List Int) (t : Int)
    (hmono : ∀ i j, i ≤ j → j < buf.length → tsAt buf i ≤ tsAt buf j) :
    ∀ fuel left rightEx bestIndex : Nat, ∀ bestDelta : Int,
      rightEx - left ≤ fuel →
      rightEx ≤ buf.length →
      bestIndex < buf.length →
      bestDelta = |t - tsAt buf bestIndex| →
      (∀ j, j < buf.length → (j < left ∨ rightEx ≤ j) → bestDelta ≤ |t - tsAt buf j|) →
      bsLoop buf t fuel left rightEx bestIndex bestDelta < buf.length ∧
      ∀ j, j < buf.length →
        |t - tsAt buf (bsLoop buf t fuel left rightEx bestIndex bestDelta)| ≤ |t - tsAt buf j| := by
  intro fuel
  induction fuel with
  | zero =>
    intro left rightEx bi bd hfuel hre hbi hbd hout
    simp only [bsLoop]
    refine ⟨hbi, fun j hj => ?_⟩
    have := hout j hj (by omega)
    omega
  | succ fuel ih =>
    intro left rightEx bi bd hfuel hre hbi hbd hout
    by_cases h : left < rightEx
    · simp only [bsLoop, if_pos h]
      set mid := (left + rightEx - 1) / 2 with hmiddef
      have hmid1 : left ≤ mid := by omega
      have hmid2 : mid < rightEx := by omega
      have hmidlen : mid < buf.length := by omega
      set d : Int := |t - tsAt buf mid| with hd
      by_cases hlt : tsAt buf mid < t
      · simp only [if_pos hlt]
        apply ih
        · omega
        · exact hre
        · split <;> omega
        · split <;> simp [hbd]
        · -- every index now outside [mid+1, rightEx) is no better than the new best
          intro j hj hcase
          have hbd' : (if d < bd then d else bd) ≤ bd := by split <;> omega
          have hbd'' : (if d < bd then d else bd) ≤ d := by split <;> omega
          rcases hcase with hc | hc
          · rcases Nat.lt_or_ge j left with hjl | hjl
            · exact le_trans hbd' (hout j hj (Or.inl hjl))
            · -- left ≤ j ≤ mid: timestamps below the target, delta at least d
              have hts : tsAt buf j ≤ tsAt buf mid := hmono j mid (by omega) hmidlen
              have h1 : |t - tsAt buf mid| = t - tsAt buf mid := abs_of_pos (by omega)
              have h2 : |t - tsAt buf j| = t - tsAt buf j := abs_of_pos (by omega)
              omega
          · exact le_trans hbd' (hout j hj (Or.inr hc))
      · by_cases hgt : t < tsAt buf mid
        · simp only [if_neg hlt, if_pos hgt]
          apply ih
          · omega
          · omega
          · split <;> omega
          · split <;> simp [hbd]
          · intro j hj hcase
            have hbd' : (if d < bd then d else bd) ≤ bd := by split <;> omega
            rcases hcase with hc | hc
            · exact le_trans hbd' (hout j hj (Or.inl hc))
            · rcases Nat.lt_or_ge j rightEx with hjr | hjr
              · -- mid ≤ j < rightEx: timestamps above the target, delta at least d
                have hts : tsAt buf mid ≤ tsAt buf j := hmono mid j (by omega) hj
                have h1 : |t - tsAt buf mid| = -(t - tsAt buf mid) := abs_of_neg (by omega)
                have h2 : |t - tsAt buf j| = -(t - tsAt buf j) := abs_of_neg (by omega)
                have hbd'' : (if d < bd then d else bd) ≤ d := by split <;> omega
                omega
              · exact le_trans hbd' (hout j hj (Or.inr hjr))
        · -- exact match: buffer[mid].timestamp = t
          have heq : tsAt buf mid = t := by omega
          simp only [if_neg hlt, if_neg hgt]
          refine ⟨hmidlen, fun j hj => ?_⟩
          have h1 : |t - tsAt buf mid| = 0 := by rw [heq]; simp
          have h2 := abs_nonneg (t - tsAt buf j)
          omega
    · simp only [bsLoop, if_neg h]
      refine ⟨hbi, fun j hj => ?_⟩
      have := hout j hj (by omega)
      omega

/-- On a sorted non-empty buffer, `chooseFrame`'s binary search returns an
in-range index minimizing the absolute timestamp delta. -/
lemma chooseFrameIdx_spec (buf : List Int) (t : Int) (hne : 0 < buf.length)
    (hs : StrictlyIncreasing buf) :
    chooseFrameIdx buf t < buf.length ∧
    ∀ j, j < buf.length → |t - tsAt buf (chooseFrameIdx buf t)| ≤ |t - tsAt buf j| := by
  exact bsLoop_min buf t (fun i j hij hj => hs.mono hij hj) buf.length 0 buf.length 0
    |t - tsAt buf 0| (by omega) le_rfl hne rfl (fun j hj hcase => by omega)

end WC

namespace V5

/-- Post-scan invariant: from a state where the best-so-far is the delta at
`i - 1` and beats every index below `i`, the scan returns a global
minimizer of the absolute timestamp delta. -/
lemma scanLoop_min (buf : List Int) (t : Int) (hs : StrictlyIncreasing buf) :
    ∀ fuel i : Nat,
      buf.length - i ≤ fuel → 1 ≤ i → i ≤ buf.length →
      (∀ j, j < i → |t - tsAt buf (i - 1)| ≤ |t - tsAt buf j|) →
      ∃ r, scanLoop buf t fuel i (some |t - tsAt buf (i - 1)|) (some (i - 1)) = some r ∧
        r < buf.length ∧ ∀ j, j < buf.length → |t - tsAt buf r| ≤ |t - tsAt buf j| := by
  intro fuel
  induction fuel with
  | zero =>
    intro i hfuel h1 hlen hinv
    simp only [scanLoop]
    exact ⟨i - 1, rfl, by omega, fun j hj => hinv j (by omega)⟩
  | succ fuel ih =>
    intro i hfuel h1 hlen hinv
    simp only [scanLoop]
    by_cases hi : i < buf.length
    · simp only [if_pos hi]
      by_cases himp : |t - tsAt buf i| < |t - tsAt buf (i - 1)|
      · simp only [Option.all_some, decide_eq_true_eq, himp, if_pos]
        have := ih (i + 1) (by omega) (by omega) (by omega) (fun j hj => by
          rcases Nat.lt_or_ge j i with hji | hji
          · have := hinv j hji
            simp only [Nat.add_sub_cancel]
            omega
          · have : j = i := by omega
            simp [this])
        simpa using this
      · simp only [Option.all_some, decide_eq_true_eq, himp, if_neg, if_false]
        refine ⟨i - 1, rfl, by omega, fun j hj => ?_⟩
        rcases Nat.lt_or_ge j i with hji | hji
        · exact hinv j hji
        · -- the loop broke: the buffer has crossed the target, deltas grow
          have hcross : t ≤ tsAt buf i := by
            by_contra hc
            push_neg at hc
            have hts : tsAt buf (i - 1) < tsAt buf i := hs i hi (i - 1) (by omega)
            have e1 : |t - tsAt buf i| = t - tsAt buf i := abs_of_pos (by omega)
            have e2 : |t - tsAt buf (i - 1)| = t - tsAt buf (i - 1) :=
              abs_of_pos (by omega)
            omega
          have hts : tsAt buf i ≤ tsAt buf j := hs.mono hji hj
          have e1 : |t - tsAt buf i| = -(t - tsAt buf i) := by
            rcases eq_or_lt_of_le hcross with hq | hq
            · rw [← hq]; simp
            · exact abs_of_neg (by omega)
          have e2 : |t - tsAt buf j| = -(t - tsAt buf j) := by
            rcases eq_or_lt_of_le (le_trans hcross hts) with hq | hq
            · rw [← hq]; simp
            · exact abs_of_neg (by omega)
          omega
    · simp only [if_neg hi]
      exact ⟨i - 1, rfl, by omega, fun j hj => hinv j (by omega)⟩

/-- On a sorted non-empty buffer the scan (started, as in the source, at
`i = 0` with the `MAX_VALUE`/`-1` sentinels) returns an in-range global
minimizer of the absolute timestamp delta. -/
lemma scanLoop_spec (buf : List Int) (t : Int) (hne : 0 < buf.length)
    (hs : StrictlyIncreasing buf) :
    ∃ r, scanLoop buf t buf.length 0 none none = some r ∧ r < buf.length ∧
      ∀ j, j < buf.length → |t - tsAt buf r| ≤ |t - tsAt buf j| := by
  obtain ⟨m, hm⟩ : ∃ m, buf.length = m + 1 := ⟨buf.length - 1, by omega⟩
  rw [hm]
  simp only [scanLoop, ← hm, if_pos hne, Option.all_none, if_pos]
  have := scanLoop_min buf t hs m 1 (by omega) le_rfl (by omega)
    (fun j hj => by
      have : j = 0 := by omega
      simp [this])
  simpa using this

end V5

lemma tsAt_drop (buf : List Int) (k i : Nat) :
    tsAt (buf.drop k) i = tsAt buf (k + i) := by
  simp [tsAt, List.getD_eq_getElem?_getD, List.getElem?_drop]

lemma tsAt_eq_getElem (buf : List Int) (i : Nat) (h : i < buf.length) :
    tsAt buf i = buf[i] := by
  simp [tsAt, List.getD_eq_getElem?_getD, List.getElem?_eq_getElem h]

lemma tsAt_mem (buf : List Int) (i : Nat) (h : i < buf.length) :
    tsAt buf i ∈ buf := by
  rw [tsAt_eq_getElem buf i h]
  exact List.getElem_mem h

lemma StrictlyIncreasing.drop {buf : List Int} (hs : StrictlyIncreasing buf)
    (k : Nat) : StrictlyIncreasing (buf.drop k) := by
  intro j hj i hij
  rw [tsAt_drop, tsAt_drop]
  rw [List.length_drop] at hj
  exact hs (k + j) (by omega) (k + i) (by omega)

lemma StrictlyIncreasing.head_le {buf : List Int} (hs : StrictlyIncreasing buf)
    {f x : Int} (hh : buf.head? = some f) (hx : x ∈ buf) : f ≤ x := by
  obtain ⟨n, hn, rfl⟩ := List.mem_iff_getElem.mp hx
  have h0 : 0 < buf.length := by omega
  have hf : f = tsAt buf 0 := by
    rw [List.head?_eq_getElem?, List.getElem?_eq_getElem h0] at hh
    rw [tsAt_eq_getElem buf 0 h0]
    exact (Option.some_injective _ hh).symm
  rw [hf, ← tsAt_eq_getElem buf n hn]
  exact hs.mono (Nat.zero_le n) hn

lemma WC.chooseFrame_selectsSuffix : SelectsSuffix WC.chooseFrame := by
  intro buf t _
  by_cases h : buf.isEmpty
  · refine ⟨0, ?_⟩
    rw [List.isEmpty_iff] at h
    simp [WC.chooseFrame, h]
  · exact ⟨WC.chooseFrameIdx buf t, by simp [WC.chooseFrame, h]⟩

lemma V5.chooseFrameV5_selectsSuffix : SelectsSuffix V5.chooseFrame := by
  intro buf t hs
  by_cases h : buf.isEmpty
  · refine ⟨0, ?_⟩
    rw [List.isEmpty_iff] at h
    simp [V5.chooseFrame, h]
  · have hne : 0 < buf.length := by
      rw [List.isEmpty_iff] at h
      cases buf with
      | nil => exact absurd rfl h
      | cons a l => simp
    obtain ⟨r, hr, _, _⟩ := V5.scanLoop_spec buf t hne hs
    exact ⟨r, by simp [V5.chooseFrame, h, hr]⟩

/-- Selection only ever returns frames of the buffer and, for a sorted
buffer, the returned timestamps never decrease across calls. -/
lemma selectSeq_pairwise (choose : List Int → Int → Option Int × List Int × List Int)
    (hgood : SelectsSuffix choose) :
    ∀ targets buf, StrictlyIncreasing buf →
      (selectSeq choose buf targets).Pairwise (· ≤ ·) ∧
      ∀ x ∈ selectSeq choose buf targets, x ∈ buf := by
  intro targets
  induction targets with
  | nil => intro buf _; simp [selectSeq]
  | cons t ts ih =>
    intro buf hs
    obtain ⟨k, hk⟩ := hgood buf t hs
    have hsd : StrictlyIncreasing (buf.drop k) := hs.drop k
    have hsub : ∀ x ∈ buf.drop k, x ∈ buf := fun x hx => List.drop_subset k buf hx
    obtain ⟨ihp, ihm⟩ := ih (buf.drop k) hsd
    cases hh : (buf.drop k).head? with
    | none =>
      have : selectSeq choose buf (t :: ts) = selectSeq choose (buf.drop k) ts := by
        simp only [selectSeq, hk, hh]
      rw [this]
      exact ⟨ihp, fun x hx => hsub x (ihm x hx)⟩
    | some f =>
      have : selectSeq choose buf (t :: ts) = f :: selectSeq choose (buf.drop k) ts := by
        simp only [selectSeq, hk, hh]
      rw [this]
      have hfmem : f ∈ buf.drop k := by
        cases hb : buf.drop k with
        | nil => rw [hb] at hh; simp at hh
        | cons a l =>
          rw [hb] at hh
          simp only [List.head?_cons, Option.some_inj] at hh
          rw [hh]
          exact List.mem_cons_self f l
      refine ⟨List.pairwise_cons.mpr ⟨fun x hx => ?_, ihp⟩, fun x hx => ?_⟩
      · exact hsd.head_le hh (ihm x hx)
      · rcases List.mem_cons.mp hx with rfl | hx
        · exact hsub x hfmem
        · exact hsub x (ihm x hx)

lemma count_take_add_drop (l : List Frame) (k : Nat) (x : Frame) :
    l.count x = (l.take k).count x + (l.drop k).count x := by
  conv_lhs => rw [← List.take_append_drop k l]
  rw [List.count_append]

/-- Conservation of frames, per state: every frame the decoder ever emitted
is accounted for — it is in the buffer or in the closed log, with the same
multiplicity. -/
def WC.FrameAccounted (s : WC.PlayerBuf) : Prop :=
  ∀ x : Frame, s.inserted.count x = s.buffer.count x + s.closed.count x

lemma WC.applyOp_accounted (s : WC.PlayerBuf) (op : WC.BufOp)
    (h : WC.FrameAccounted s) : WC.FrameAccounted (WC.applyOp s op) := by
  intro x
  have hx := h x
  cases op with
  | output f =>
    simp only [WC.applyOp, WC.decoderOutput]
    have hb := count_take_add_drop s.buffer 1 x
    rw [List.drop_one] at hb
    split <;> simp only [List.count_append] <;> omega
  | render now =>
    simp only [WC.applyOp, WC.renderTick]
    have hb := count_take_add_drop s.buffer
      (min (WC.stalePrefixLen now s.buffer) (s.buffer.length - 1)) x
    set k := min (WC.stalePrefixLen now s.buffer) (s.buffer.length - 1) with hk
    cases hd : s.buffer.drop k with
    | nil =>
      simp only [hd, List.count_append, List.count_nil] at hb ⊢
      omega
    | cons f rest =>
      rw [hd, List.count_cons] at hb
      simp only [hd]
      split
      · split
        · simp only [List.count_append, List.count_cons] at hb ⊢
          omega
        · simp only [List.count_append, List.count_cons] at hb ⊢
          omega
      · simp only [List.count_append, List.count_cons] at hb ⊢
        omega
  | seekClear =>
    simp only [WC.applyOp, WC.clearFrames, List.count_append, List.count_nil]
    omega
  | teardown =>
    simp only [WC.applyOp, WC.clearFrames, List.count_append, List.count_nil]
    omega

lemma WC.runOps_accounted (ops : List WC.BufOp) :
    WC.FrameAccounted (WC.runOps ops) := by
  have hgen : ∀ s, WC.FrameAccounted s → WC.FrameAccounted (ops.foldl WC.applyOp s) := by
    induction ops with
    | nil => intro s hs; exact hs
    | cons op rest ih =>
      intro s hs
      exact ih (WC.applyOp s op) (WC.applyOp_accounted s op hs)
  exact hgen WC.initBuf (fun x => rfl)

/-- With the needs-keyframe flag clear, every chunk is submitted and the
flag stays clear. -/
lemma fillRun_false (cs : List Chunk) : fillRun false cs = (false, cs) := by
  induction cs with
  | nil => rfl
  | cons c rest ih => simp [fillRun, fillStep, ih]

/-- With the needs-keyframe flag set, the submitted chunks are exactly the
suffix of the stream from its first keyframe on, and the flag stays set iff
no keyframe arrived. -/
lemma fillRun_true (cs : List Chunk) :
    fillRun true cs =
      ((cs.dropWhile fun c => !c.key).isEmpty, cs.dropWhile fun c => !c.key) := by
  induction cs with
  | nil => rfl
  | cons c rest ih =>
    by_cases hc : c.key
    · simp [fillRun, fillStep, hc, fillRun_false, List.dropWhile_cons]
    · have hstep : fillStep true c = (true, none) := by simp [fillStep, hc]
      simp [fillRun, hstep, ih, List.dropWhile_cons, hc]

lemma V5.scheduleAudioPlayback_contiguous (now : ℚ) (durs : List ℚ)
    (hnn : ∀ d ∈ durs, 0 ≤ d) :
    ∀ s : V5.AudioSched, now ≤ s.nextAudioTime →
      V5.scheduleAudioPlayback now s durs =
        { nextAudioTime := s.nextAudioTime + durs.sum,
          scheduled := s.scheduled ++ V5.contiguousFrom s.nextAudioTime durs } := by
  induction durs with
  | nil => intro s _; simp [V5.scheduleAudioPlayback, V5.contiguousFrom]
  | cons d ds ih =>
    intro s hcur
    have hd : 0 ≤ d := hnn d (List.mem_cons_self d ds)
    have hmax : max s.nextAudioTime now = s.nextAudioTime := max_eq_left hcur
    have hstep : V5.scheduleChunk now s d =
        { nextAudioTime := s.nextAudioTime + d,
          scheduled := s.scheduled ++ [(s.nextAudioTime, d)] } := by
      simp [V5.scheduleChunk, hmax]
    have hrec := ih (fun x hx => hnn x (List.mem_cons_of_mem d hx))
      { nextAudioTime := s.nextAudioTime + d,
        scheduled := s.scheduled ++ [(s.nextAudioTime, d)] }
      (by simpa using le_trans hcur (by linarith))
    simp only [V5.scheduleAudioPlayback, List.foldl_cons, hstep] at *
    rw [hrec]
    simp [V5.contiguousFrom, add_assoc, List.sum_cons]

lemma WC.handleSeek_needsKeyframe (nowP nowA : ℚ) (s : Player) (t : ℚ) :
    (WC.handleSeek nowP nowA s t).needsKeyframe = true := by
  simp only [WC.handleSeek, WC.play, WC.pause]
  split_ifs <;> rfl

lemma V5.handleSeekV5_needsKeyframe (nowP nowA : ℚ) (s : Player) (t : ℚ) :
    (V5.handleSeek nowP nowA s t).needsKeyframe = true := by
  simp only [V5.handleSeek, V5.play, V5.pause]
  split_ifs <;> rfl

lemma WC.applyOp_length_le (s : WC.PlayerBuf) (op : WC.BufOp)
    (h : s.buffer.length ≤ WC.FRAME_BUFFER_MAX_SIZE) :
    (WC.applyOp s op).buffer.length ≤ WC.FRAME_BUFFER_MAX_SIZE := by
  have hM : WC.FRAME_BUFFER_MAX_SIZE = 120 := rfl
  cases op with
  | output f =>
    simp only [WC.applyOp, WC.decoderOutput]
    split
    · simp only [List.length_append, List.length_tail, List.length_cons,
        List.length_nil]
      omega
    · simp only [List.length_append, List.length_cons, List.length_nil]
      omega
  | render now =>
    simp only [WC.applyOp, WC.renderTick]
    set k := min (WC.stalePrefixLen now s.buffer) (s.buffer.length - 1) with hk
    have hdlen : (s.buffer.drop k).length = s.buffer.length - k := List.length_drop k s.buffer
    cases hd : s.buffer.drop k with
    | nil => simp [hd, WC.FRAME_BUFFER_MAX_SIZE]
    | cons f rest =>
      rw [hd] at hdlen
      simp only [hd, List.length_cons] at hdlen ⊢
      split
      · split
        · simp only [List.length_cons]
          omega
        · simp only [List.length_cons]
          omega
      · simp only [List.length_cons]
        omega
  | seekClear => simp [WC.applyOp, WC.clearFrames]
  | teardown => simp [WC.applyOp, WC.clearFrames]

lemma WC.runOps_length_le (ops : List WC.BufOp) :
    (WC.runOps ops).buffer.length ≤ WC.FRAME_BUFFER_MAX_SIZE := by
  have hgen : ∀ s, s.buffer.length ≤ WC.FRAME_BUFFER_MAX_SIZE →
      (ops.foldl WC.applyOp s).buffer.length ≤ WC.FRAME_BUFFER_MAX_SIZE := by
    induction ops with
    | nil => intro s hs; exact hs
    | cons op rest ih =>
      intro s hs
      exact ih (WC.applyOp s op) (WC.applyOp_length_le s op hs)
  exact hgen WC.initBuf (by simp [WC.initBuf, WC.FRAME_BUFFER_MAX_SIZE])

/-! ## The claims -/

/-- **C1.** Every decoded video frame that is removed from the frame buffer —
whether evicted on overflow in the decoder output callback, stale-dropped or
displayed in the render loop, or cleared on seek or at teardown — is
released (closed) exactly when it is removed; no removal path discards a
frame without closing it.  Formally: after any sequence of buffer events
starting from the initial state, the multiset of frames ever delivered by
the decoder equals the multiset of frames still in the buffer plus the
multiset of frames closed (counted per frame identity, so each removal is
matched by exactly one close). -/
theorem claim_C1_frames_closed_on_removal (ops : List WC.BufOp) (x : Frame) :
    (WC.runOps ops).inserted.count x =
      (WC.runOps ops).buffer.count x + (WC.runOps ops).closed.count x :=
  WC.runOps_accounted ops x

/-- **C2.** After any seek (both players' `handleSeek` set the
needs-keyframe flag; the flag is also set at decoder configuration), the
first encoded sample submitted to the video decoder is a keyframe: while
the flag is set, `fillFrameBuffer` submits exactly the suffix of the
demuxed chunk stream starting at its first key chunk — every delta chunk
before it is skipped without submission — the flag is cleared exactly when
a key chunk is submitted, and the head of the submitted sequence, when any
chunk is submitted at all, is a key chunk. -/
theorem claim_C2_keyframe_after_seek :
    (∀ (nowP nowA : ℚ) (s : Player) (t : ℚ),
      (WC.handleSeek nowP nowA s t).needsKeyframe = true ∧
      (V5.handleSeek nowP nowA s t).needsKeyframe = true) ∧
    (∀ cs : List Chunk,
      fillRun true cs =
        ((cs.dropWhile fun c => !c.key).isEmpty, cs.dropWhile fun c => !c.key)) ∧
    (∀ cs : List Chunk, ((fillRun true cs).2.head?.all fun c => c.key) = true) := by
  refine ⟨fun nowP nowA s t =>
    ⟨WC.handleSeek_needsKeyframe nowP nowA s t,
     V5.handleSeekV5_needsKeyframe nowP nowA s t⟩, fillRun_true, fun cs => ?_⟩
  rw [fillRun_true]
  induction cs with
  | nil => rfl
  | cons c rest ih =>
    by_cases hc : c.key
    · simp [List.dropWhile_cons, hc]
    · simpa [List.dropWhile_cons, hc] using ih

/-- **C3.** For every sequence of decoder outputs (and any other buffer
events), the frame buffer's length never exceeds
`FRAME_BUFFER_MAX_SIZE = 120`; and an insertion arriving when the buffer is
at the hard maximum evicts exactly the oldest frame (closing it) and
increments the dropped-frame counter by exactly one. -/
theorem claim_C3_buffer_bound (ops : List WC.BufOp) (s : WC.PlayerBuf) (f : Frame)
    (hmax : s.buffer.length = WC.FRAME_BUFFER_MAX_SIZE) :
    (WC.runOps ops).buffer.length ≤ WC.FRAME_BUFFER_MAX_SIZE ∧
    (WC.decoderOutput s f).buffer.length = WC.FRAME_BUFFER_MAX_SIZE ∧
    (WC.decoderOutput s f).dropped = s.dropped + 1 ∧
    (WC.decoderOutput s f).buffer = s.buffer.tail ++ [f] ∧
    (WC.decoderOutput s f).closed = s.buffer.take 1 ++ s.closed := by
  have hM : WC.FRAME_BUFFER_MAX_SIZE = 120 := rfl
  have hcond : WC.FRAME_BUFFER_MAX_SIZE ≤ s.buffer.length := le_of_eq hmax.symm
  have h120 : s.buffer.length = 120 := hmax.trans hM
  refine ⟨WC.runOps_length_le ops, ?_, ?_, ?_, ?_⟩
  · simp only [WC.decoderOutput, if_pos hcond, List.length_append, List.length_tail,
      List.length_cons, List.length_nil]
    omega
  · simp only [WC.decoderOutput, if_pos hcond]
    omega
  · simp [WC.decoderOutput, if_pos hcond]
  · simp [WC.decoderOutput, if_pos hcond]

/-- Witness for C3 at a concrete full buffer. -/
theorem claim_C3_buffer_bound_witness :
    (WC.runOps [WC.BufOp.output ⟨0, 0⟩, WC.BufOp.render 0,
        WC.BufOp.seekClear]).buffer.length ≤ WC.FRAME_BUFFER_MAX_SIZE ∧
    (WC.decoderOutput
        ⟨(List.range 120).map (fun i => ⟨i, (i : Int)⟩), 0, [], [], -1⟩
        ⟨200, 200⟩).buffer.length = WC.FRAME_BUFFER_MAX_SIZE ∧
    (WC.decoderOutput
        ⟨(List.range 120).map (fun i => ⟨i, (i : Int)⟩), 0, [], [], -1⟩
        ⟨200, 200⟩).dropped = 0 + 1 ∧
    (WC.decoderOutput
        ⟨(List.range 120).map (fun i => ⟨i, (i : Int)⟩), 0, [], [], -1⟩
        ⟨200, 200⟩).buffer =
      ((List.range 120).map (fun i => ⟨i, (i : Int)⟩) : List Frame).tail ++ [⟨200, 200⟩] ∧
    (WC.decoderOutput
        ⟨(List.range 120).map (fun i => ⟨i, (i : Int)⟩), 0, [], [], -1⟩
        ⟨200, 200⟩).closed =
      ((List.range 120).map (fun i => ⟨i, (i : Int)⟩) : List Frame).take 1 ++ [] :=
  claim_C3_buffer_bound [WC.BufOp.output ⟨0, 0⟩, WC.BufOp.render 0, WC.BufOp.seekClear]
    ⟨(List.range 120).map (fun i => ⟨i, (i : Int)⟩), 0, [], [], -1⟩ ⟨200, 200⟩ rfl

/-- **C8.** When the video codec is unsupported, initialization fails with
the unsupported-codec error before any encoded sample is submitted to a
decoder: with the earlier initialization steps succeeding, the probe's
failure yields exactly `UnsupportedCodec`, and whatever else fails, no
chunk is ever submitted when the codec is unsupported. -/
theorem claim_C8_unsupported_codec :
    (∀ videoChunks : List Chunk,
      WC.initPlayer true true true false videoChunks =
        (Except.error WC.InitError.unsupportedCodec, [])) ∧
    (∀ (w c d : Bool) (videoChunks : List Chunk),
      (WC.initPlayer w c d false videoChunks).2 = []) := by
  refine ⟨fun videoChunks => rfl, fun w c d videoChunks => ?_⟩
  cases w <;> cases c <;> cases d <;> rfl

/-- **C9 (counterexample).** The claim says the start time of each
scheduled chunk equals the end time of the previously scheduled chunk.  In
the code the start is `max(nextAudioTime, audioContext.currentTime)`: when
the audio clock has run past the cursor (decode underrun), the next chunk
starts at the clock, not at the previous chunk's end — here a chunk
occupying [0, 1) was scheduled (cursor 1), the clock reads 5, and the next
chunk is scheduled at 5 ≠ 1, a 4-second gap. -/
theorem claim_C9_gap_counterexample :
    V5.scheduleAudioPlayback 5 (⟨1, [(0, 1)]⟩ : V5.AudioSched) [2] =
      (⟨7, [(0, 1), (5, 2)]⟩ : V5.AudioSched) ∧
    (5 : ℚ) ≠ 0 + 1 := by
  have hmax : max (1 : ℚ) 5 = 5 := max_eq_right (by norm_num)
  constructor
  · simp only [V5.scheduleAudioPlayback, List.foldl_cons, List.foldl_nil,
      V5.scheduleChunk, hmax, V5.AudioSched.mk.injEq]
    constructor
    · norm_num
    · rfl
  · norm_num

/-- **C9 (amended).** In streaming audio mode, as long as the audio clock
has not run past the next-output-time cursor, every scheduled chunk starts
exactly at the cursor — i.e. at the end time (start plus duration) of the
previously scheduled chunk — and the cursor advances to that end time, so
adjacent chunks have no overlap and no gap; when the clock is ahead of the
cursor the chunk is scheduled at `max(cursor, clock)`, which can leave a
gap (see the counterexample) but never an overlap. -/
theorem claim_C9_audio_contiguous_amended (now : ℚ) (s : V5.AudioSched)
    (durs : List ℚ) (hnn : ∀ d ∈ durs, 0 ≤ d) (hcur : now ≤ s.nextAudioTime) :
    V5.scheduleAudioPlayback now s durs =
      { nextAudioTime := s.nextAudioTime + durs.sum,
        scheduled := s.scheduled ++ V5.contiguousFrom s.nextAudioTime durs } :=
  V5.scheduleAudioPlayback_contiguous now durs hnn s hcur

/-- Witness for C9 (amended): two chunks scheduled back-to-back. -/
theorem claim_C9_audio_contiguous_amended_witness :
    V5.scheduleAudioPlayback 0 (⟨0, []⟩ : V5.AudioSched) [1, 2] =
      { nextAudioTime := (0 : ℚ) + ([1, 2] : List ℚ).sum,
        scheduled := ([] : List (ℚ × ℚ)) ++ V5.contiguousFrom 0 [1, 2] } :=
  claim_C9_audio_contiguous_amended 0 ⟨0, []⟩ [1, 2] (by norm_num) le_rfl

lemma WC.pause_stable (nowP nowA : ℚ) (s : Player) :
    (WC.pause nowP nowA s).isPlaying = false ∧
    (WC.pause nowP nowA s).hasAudio = s.hasAudio ∧
    (WC.pause nowP nowA s).hasAudioBuf = s.hasAudioBuf ∧
    (WC.pause nowP nowA s).audioBufDuration = s.audioBufDuration ∧
    (WC.pause nowP nowA s).frameBuffer = s.frameBuffer := by
  refine ⟨?_, ?_, ?_, ?_, ?_⟩ <;> (simp only [WC.pause]; split_ifs <;> rfl)

lemma WC.pause_mediaStartTime_audio (nowP nowA : ℚ) (s : Player)
    (ha : s.hasAudio = true) :
    (WC.pause nowP nowA s).mediaStartTime =
      (s.mediaTimeOffset + (nowA - s.audioStartTime)) * 1000000 := by
  simp [WC.pause, ha]

/-- On a paused audio-clocked state whose saved offset is nonzero, not
behind the buffer head, and inside the audio buffer (when one exists),
`play()` restores exactly `mediaStartTime / 1e6`. -/
lemma WC.play_offset (nowP nowA : ℚ) (p : Player)
    (hnp : p.isPlaying = false) (ha : p.hasAudio = true)
    (hadj : p.frameBuffer.head? = none ∨
      ∃ f0, p.frameBuffer.head? = some f0 ∧ p.mediaStartTime / 1000000 ≠ 0 ∧
        ¬(p.mediaStartTime / 1000000 < (f0 : ℚ) / 1000000))
    (hclamp : p.hasAudioBuf = false ∨
      (0 ≤ p.mediaStartTime / 1000000 ∧
       p.mediaStartTime / 1000000 ≤ p.audioBufDuration)) :
    (WC.play nowP nowA p).mediaTimeOffset = p.mediaStartTime / 1000000 := by
  rcases hadj with hnone | ⟨f0, hf0, hne0, hnlt⟩
  · have hfb : p.frameBuffer = [] := List.head?_eq_none_iff.mp hnone
    by_cases hab : p.hasAudioBuf = true
    · rcases hclamp with hb | ⟨h0, hd⟩
      · rw [hab] at hb; exact Bool.noConfusion hb
      · simp [WC.play, hnp, ha, hfb, hab, min_eq_left hd, max_eq_right h0]
    · simp only [Bool.not_eq_true] at hab
      simp [WC.play, hnp, ha, hfb, hab]
  · by_cases hab : p.hasAudioBuf = true
    · rcases hclamp with hb | ⟨h0, hd⟩
      · rw [hab] at hb; exact Bool.noConfusion hb
      · simp [WC.play, hnp, ha, hf0, hne0, hnlt, hab, min_eq_left hd, max_eq_right h0]
    · simp only [Bool.not_eq_true] at hab
      simp [WC.play, hnp, ha, hf0, hne0, hnlt, hab]

/-- Without an audio clock, `play()` never writes `mediaStartTimeRef`. -/
lemma WC.play_mediaStartTime_noAudio (nowP nowA : ℚ) (p : Player)
    (ha : p.hasAudio = false) :
    (WC.play nowP nowA p).mediaStartTime = p.mediaStartTime := by
  simp only [WC.play, ha]
  split_ifs <;> simp_all


/-- The fields of the player state that `WC.pause` leaves untouched, and the
playing flag it clears. -/
lemma WC.pause_isPlaying (nowP nowA : ℚ) (s : Player) :
    (WC.pause nowP nowA s).isPlaying = false := by
  simp only [WC.pause]; split_ifs <;> rfl

lemma WC.pause_frameBuffer (nowP nowA : ℚ) (s : Player) :
    (WC.pause nowP nowA s).frameBuffer = s.frameBuffer := by
  simp only [WC.pause]; split_ifs <;> rfl

lemma WC.pause_closedFrames (nowP nowA : ℚ) (s : Player) :
    (WC.pause nowP nowA s).closedFrames = s.closedFrames := by
  simp only [WC.pause]; split_ifs <;> rfl

lemma WC.pause_audioQueue (nowP nowA : ℚ) (s : Player) :
    (WC.pause nowP nowA s).audioQueue = s.audioQueue := by
  simp only [WC.pause]; split_ifs <;> rfl

lemma WC.pause_closedAudio (nowP nowA : ℚ) (s : Player) :
    (WC.pause nowP nowA s).closedAudio = s.closedAudio := by
  simp only [WC.pause]; split_ifs <;> rfl

lemma WC.pause_videoSeekPos (nowP nowA : ℚ) (s : Player) :
    (WC.pause nowP nowA s).videoSeekPos = s.videoSeekPos := by
  simp only [WC.pause]; split_ifs <;> rfl

lemma WC.pause_audioSeekPos (nowP nowA : ℚ) (s : Player) :
    (WC.pause nowP nowA s).audioSeekPos = s.audioSeekPos := by
  simp only [WC.pause]; split_ifs <;> rfl

lemma WC.pause_needsKeyframe (nowP nowA : ℚ) (s : Player) :
    (WC.pause nowP nowA s).needsKeyframe = s.needsKeyframe := by
  simp only [WC.pause]; split_ifs <;> rfl

lemma WC.pause_currentTime (nowP nowA : ℚ) (s : Player) :
    (WC.pause nowP nowA s).currentTime = s.currentTime := by
  simp only [WC.pause]; split_ifs <;> rfl

/-- `V5.pause` is the same clock fold as `WC.pause`. -/
lemma V5.pause_eq (nowP nowA : ℚ) (s : Player) :
    V5.pause nowP nowA s = WC.pause nowP nowA s := rfl

/-- The fields of the player state `WC.play` leaves untouched, and the
playing flag it sets. -/
lemma WC.play_isPlaying (nowP nowA : ℚ) (s : Player) :
    (WC.play nowP nowA s).isPlaying = (true || s.isPlaying) := by
  by_cases hp : s.isPlaying
  · simp [WC.play, hp]
  · cases hfb : s.frameBuffer.head? <;>
      (simp only [WC.play, hp, hfb]; split_ifs <;> simp_all)

lemma WC.play_frameBuffer (nowP nowA : ℚ) (s : Player) :
    (WC.play nowP nowA s).frameBuffer = s.frameBuffer := by
  by_cases hp : s.isPlaying
  · simp [WC.play, hp]
  · cases hfb : s.frameBuffer.head? <;>
      (simp only [WC.play, hp, hfb]; split_ifs <;> rfl)

lemma WC.play_closedFrames (nowP nowA : ℚ) (s : Player) :
    (WC.play nowP nowA s).closedFrames = s.closedFrames := by
  by_cases hp : s.isPlaying
  · simp [WC.play, hp]
  · cases hfb : s.frameBuffer.head? <;>
      (simp only [WC.play, hp, hfb]; split_ifs <;> rfl)

lemma WC.play_audioQueue (nowP nowA : ℚ) (s : Player) :
    (WC.play nowP nowA s).audioQueue = s.audioQueue := by
  by_cases hp : s.isPlaying
  · simp [WC.play, hp]
  · cases hfb : s.frameBuffer.head? <;>
      (simp only [WC.play, hp, hfb]; split_ifs <;> rfl)

lemma WC.play_closedAudio (nowP nowA : ℚ) (s : Player) :
    (WC.play nowP nowA s).closedAudio = s.closedAudio := by
  by_cases hp : s.isPlaying
  · simp [WC.play, hp]
  · cases hfb : s.frameBuffer.head? <;>
      (simp only [WC.play, hp, hfb]; split_ifs <;> rfl)

lemma WC.play_videoSeekPos (nowP nowA : ℚ) (s : Player) :
    (WC.play nowP nowA s).videoSeekPos = s.videoSeekPos := by
  by_cases hp : s.isPlaying
  · simp [WC.play, hp]
  · cases hfb : s.frameBuffer.head? <;>
      (simp only [WC.play, hp, hfb]; split_ifs <;> rfl)

lemma WC.play_audioSeekPos (nowP nowA : ℚ) (s : Player) :
    (WC.play nowP nowA s).audioSeekPos = s.audioSeekPos := by
  by_cases hp : s.isPlaying
  · simp [WC.play, hp]
  · cases hfb : s.frameBuffer.head? <;>
      (simp only [WC.play, hp, hfb]; split_ifs <;> rfl)

lemma WC.play_needsKeyframe (nowP nowA : ℚ) (s : Player) :
    (WC.play nowP nowA s).needsKeyframe = s.needsKeyframe := by
  by_cases hp : s.isPlaying
  · simp [WC.play, hp]
  · cases hfb : s.frameBuffer.head? <;>
      (simp only [WC.play, hp, hfb]; split_ifs <;> rfl)

lemma WC.play_currentTime (nowP nowA : ℚ) (s : Player) :
    (WC.play nowP nowA s).currentTime = s.currentTime := by
  by_cases hp : s.isPlaying
  · simp [WC.play, hp]
  · cases hfb : s.frameBuffer.head? <;>
      (simp only [WC.play, hp, hfb]; split_ifs <;> rfl)

/-- `WC.play` rewrites `mediaStartTimeRef` only through the first-frame
adjustment, which an empty buffer rules out. -/
lemma WC.play_mediaStartTime_emptyBuf (nowP nowA : ℚ) (s : Player)
    (hfb : s.frameBuffer = []) :
    (WC.play nowP nowA s).mediaStartTime = s.mediaStartTime := by
  by_cases hp : s.isPlaying
  · simp [WC.play, hp]
  · simp only [WC.play, hp, hfb, List.head?_nil]
    split_ifs <;> rfl

/-- The fields of the player state `V5.play` leaves untouched, and the
playing flag it sets. -/
lemma V5.playV5_isPlaying (nowP nowA : ℚ) (s : Player) :
    (V5.play nowP nowA s).isPlaying = (true || s.isPlaying) := by
  by_cases hp : s.isPlaying
  · simp [V5.play, hp]
  · simp only [V5.play, hp]; split_ifs <;> simp_all

lemma V5.playV5_frameBuffer (nowP nowA : ℚ) (s : Player) :
    (V5.play nowP nowA s).frameBuffer = s.frameBuffer := by
  by_cases hp : s.isPlaying
  · simp [V5.play, hp]
  · simp only [V5.play, hp]; split_ifs <;> rfl

lemma V5.playV5_closedFrames (nowP nowA : ℚ) (s : Player) :
    (V5.play nowP nowA s).closedFrames = s.closedFrames := by
  by_cases hp : s.isPlaying
  · simp [V5.play, hp]
  · simp only [V5.play, hp]; split_ifs <;> rfl

lemma V5.playV5_audioQueue (nowP nowA : ℚ) (s : Player) :
    (V5.play nowP nowA s).audioQueue = s.audioQueue := by
  by_cases hp : s.isPlaying
  · simp [V5.play, hp]
  · simp only [V5.play, hp]; split_ifs <;> rfl

lemma V5.playV5_closedAudio (nowP nowA : ℚ) (s : Player) :
    (V5.play nowP nowA s).closedAudio = s.closedAudio := by
  by_cases hp : s.isPlaying
  · simp [V5.play, hp]
  · simp only [V5.play, hp]; split_ifs <;> rfl

lemma V5.playV5_videoSeekPos (nowP nowA : ℚ) (s : Player) :
    (V5.play nowP nowA s).videoSeekPos = s.videoSeekPos := by
  by_cases hp : s.isPlaying
  · simp [V5.play, hp]
  · simp only [V5.play, hp]; split_ifs <;> rfl

lemma V5.playV5_audioSeekPos (nowP nowA : ℚ) (s : Player) :
    (V5.play nowP nowA s).audioSeekPos = s.audioSeekPos := by
  by_cases hp : s.isPlaying
  · simp [V5.play, hp]
  · simp only [V5.play, hp]; split_ifs <;> rfl

lemma V5.playV5_needsKeyframe (nowP nowA : ℚ) (s : Player) :
    (V5.play nowP nowA s).needsKeyframe = s.needsKeyframe := by
  by_cases hp : s.isPlaying
  · simp [V5.play, hp]
  · simp only [V5.play, hp]; split_ifs <;> rfl

lemma V5.playV5_currentTime (nowP nowA : ℚ) (s : Player) :
    (V5.play nowP nowA s).currentTime = s.currentTime := by
  by_cases hp : s.isPlaying
  · simp [V5.play, hp]
  · simp only [V5.play, hp]; split_ifs <;> rfl

lemma V5.playV5_mediaStartTime (nowP nowA : ℚ) (s : Player) :
    (V5.play nowP nowA s).mediaStartTime = s.mediaStartTime := by
  by_cases hp : s.isPlaying
  · simp [V5.play, hp]
  · simp only [V5.play, hp]; split_ifs <;> rfl

/-- **C4.** For every frame buffer whose frames have strictly increasing
timestamps, frame selection is monotonic: calling the selection function
(either the binary-search `chooseFrame` of WebCodecsVideoPlayer or the
linear-scan `chooseFrame` of the part_005 variant) with non-decreasing
target times never returns a frame whose timestamp is earlier than the
timestamp of a frame returned by a previous call. -/
theorem claim_C4_select_monotonic (buf targets : List Int)
    (hs : StrictlyIncreasing buf) (_ht : targets.Pairwise (· ≤ ·)) :
    (selectSeq WC.chooseFrame buf targets).Pairwise (· ≤ ·) ∧
    (selectSeq V5.chooseFrame buf targets).Pairwise (· ≤ ·) :=
  ⟨(selectSeq_pairwise WC.chooseFrame WC.chooseFrame_selectsSuffix targets buf hs).1,
   (selectSeq_pairwise V5.chooseFrame V5.chooseFrameV5_selectsSuffix targets buf hs).1⟩

/-- Witness for C4 on a concrete sorted buffer and non-decreasing targets. -/
theorem claim_C4_select_monotonic_witness :
    (selectSeq WC.chooseFrame [0, 10, 30] [5, 12, 12, 25]).Pairwise (· ≤ ·) ∧
    (selectSeq V5.chooseFrame [0, 10, 30] [5, 12, 12, 25]).Pairwise (· ≤ ·) :=
  claim_C4_select_monotonic [0, 10, 30] [5, 12, 12, 25] (by decide) (by decide)

/-- **C5 (counterexample).** The claim says selection picks "the earlier of
two frames whose deltas are equal".  On the sorted buffer
`[0, 10, 20, 30, 40]` with target `15`, frames `10` and `20` have equal
absolute delta `5`, yet WebCodecsVideoPlayer's `chooseFrame` returns the
later frame `20` (the binary search's midpoints visit index 2 with a strict
improvement before index 1, and the running best is only replaced on a
strict improvement). -/
theorem claim_C5_tiebreak_counterexample :
    StrictlyIncreasing [0, 10, 20, 30, 40] ∧
    WC.chooseFrame [0, 10, 20, 30, 40] 15 = (some 20, [0, 10], [20, 30, 40]) ∧
    |(15 : Int) - 10| = |(15 : Int) - 20| ∧ (10 : Int) < 20 := by decide

/-- **C5 (amended).** For every time-sorted frame buffer and every target
time, `chooseFrame` returns the frame with timestamp exactly equal to the
target when one exists, and otherwise a frame nearest to the target by
absolute timestamp delta; when two frames have equal deltas either of the
two may be returned (the tie-break depends on the binary-search visit
order, not always the earlier frame). -/
theorem claim_C5_nearest_amended (buf : List Int) (t : Int)
    (hs : StrictlyIncreasing buf) (hne : buf ≠ []) :
    ∃ f, (WC.chooseFrame buf t).1 = some f ∧
      (∀ j, j < buf.length → |t - f| ≤ |t - tsAt buf j|) ∧
      (∀ j, j < buf.length → tsAt buf j = t → f = t) := by
  have hlen : 0 < buf.length := List.length_pos.mpr hne
  have hem : buf.isEmpty = false := by
    cases buf with
    | nil => exact absurd rfl hne
    | cons a l => rfl
  obtain ⟨hidx, hmin⟩ := WC.chooseFrameIdx_spec buf t hlen hs
  refine ⟨tsAt buf (WC.chooseFrameIdx buf t), ?_, ?_, ?_⟩
  · simp only [WC.chooseFrame, hem, Bool.false_eq_true, if_false]
    rw [List.head?_eq_getElem?, List.getElem?_drop, Nat.add_zero,
      List.getElem?_eq_getElem hidx, tsAt_eq_getElem buf _ hidx]
  · exact hmin
  · intro j hj hjt
    have h1 := hmin j hj
    rw [hjt] at h1
    simp only [sub_self, abs_zero] at h1
    have h2 := abs_nonneg (t - tsAt buf (WC.chooseFrameIdx buf t))
    have h3 : |t - tsAt buf (WC.chooseFrameIdx buf t)| = 0 := le_antisymm h1 h2
    have := abs_eq_zero.mp h3
    omega

/-- Witness for C5 (amended) on a concrete sorted buffer. -/
theorem claim_C5_nearest_amended_witness :
    ∃ f, (WC.chooseFrame [0, 10, 30] 12).1 = some f ∧
      (∀ j, j < ([0, 10, 30] : List Int).length →
        |12 - f| ≤ |12 - tsAt [0, 10, 30] j|) ∧
      (∀ j, j < ([0, 10, 30] : List Int).length → tsAt [0, 10, 30] j = 12 → f = 12) :=
  claim_C5_nearest_amended [0, 10, 30] 12 (by decide) (by decide)

/-- **C6 (counterexample).** The claim requires every `seek(target_time)`
to release all queued audio and to instruct both the video and the audio
demuxer to seek.  `handleSeek` of WebCodecsVideoPlayer does neither: the
audio is a single pre-decoded buffer, so the seek leaves the audio queue
untouched and never calls `audioDemuxerRef.current?.seek` — on a state
with a queued `AudioData` and no prior audio seek, after `seek(2)` the
audio demuxer has still not been told to seek and the queue is intact. -/
theorem claim_C6_seek_counterexample :
    (let s : Player :=
      ⟨false, true, true, 100, [1000000], [], [7], [], 0, 0, false, none, none,
        0, 0, 0, 0⟩
     (WC.handleSeek 0 0 s 2).audioSeekPos = none ∧
     (WC.handleSeek 0 0 s 2).audioSeekPos ≠ some 2 ∧
     (WC.handleSeek 0 0 s 2).audioQueue = [7]) := by
  refine ⟨rfl, ?_, rfl⟩
  intro h
  exact Option.noConfusion h

/-- **C6 (amended).** On `seek(target_time)`: in both players, if playing,
playback is paused first and resumed after the refill (the final playing
flag equals the original one); all buffered video frames are closed and
cleared; the media time reference is set to `target_time * 1e6` and the
observable `currentTime` reads exactly `target_time` before any frame
renders; the needs-keyframe flag is set; and the video demuxer is
instructed to seek.  The part_005 variant additionally closes and clears
all queued audio and seeks the audio demuxer; the WebCodecsVideoPlayer
variant leaves the audio queue and the audio demuxer untouched (its audio
is one pre-decoded buffer). -/
theorem claim_C6_seek_amended (s : Player) (t nowP nowA : ℚ) :
    ((V5.handleSeek nowP nowA s t).isPlaying = s.isPlaying ∧
     (V5.handleSeek nowP nowA s t).frameBuffer = [] ∧
     (V5.handleSeek nowP nowA s t).closedFrames = s.frameBuffer ++ s.closedFrames ∧
     (V5.handleSeek nowP nowA s t).audioQueue = [] ∧
     (V5.handleSeek nowP nowA s t).closedAudio = s.audioQueue ++ s.closedAudio ∧
     (V5.handleSeek nowP nowA s t).videoSeekPos = some t ∧
     (V5.handleSeek nowP nowA s t).audioSeekPos = some t ∧
     (V5.handleSeek nowP nowA s t).needsKeyframe = true ∧
     (V5.handleSeek nowP nowA s t).currentTime = t ∧
     (V5.handleSeek nowP nowA s t).mediaStartTime = t * 1000000) ∧
    ((WC.handleSeek nowP nowA s t).isPlaying = s.isPlaying ∧
     (WC.handleSeek nowP nowA s t).frameBuffer = [] ∧
     (WC.handleSeek nowP nowA s t).closedFrames = s.frameBuffer ++ s.closedFrames ∧
     (WC.handleSeek nowP nowA s t).audioQueue = s.audioQueue ∧
     (WC.handleSeek nowP nowA s t).closedAudio = s.closedAudio ∧
     (WC.handleSeek nowP nowA s t).videoSeekPos = some t ∧
     (WC.handleSeek nowP nowA s t).audioSeekPos = s.audioSeekPos ∧
     (WC.handleSeek nowP nowA s t).needsKeyframe = true ∧
     (WC.handleSeek nowP nowA s t).currentTime = t ∧
     (WC.handleSeek nowP nowA s t).mediaStartTime = t * 1000000) := by
  cases hp : s.isPlaying
  · constructor <;>
      simp [V5.handleSeek, WC.handleSeek, hp]
  · constructor
    · simp only [V5.handleSeek, hp, if_pos]
      refine ⟨?_, ?_, ?_, ?_, ?_, ?_, ?_, ?_, ?_, ?_⟩ <;>
        simp [hp, V5.playV5_isPlaying, V5.playV5_frameBuffer, V5.playV5_closedFrames,
          V5.playV5_audioQueue, V5.playV5_closedAudio, V5.playV5_videoSeekPos,
          V5.playV5_audioSeekPos, V5.playV5_needsKeyframe, V5.playV5_currentTime,
          V5.playV5_mediaStartTime, V5.pause_eq,
          WC.pause_frameBuffer, WC.pause_closedFrames, WC.pause_audioQueue,
          WC.pause_closedAudio]
    · simp only [WC.handleSeek, hp, if_pos]
      refine ⟨?_, ?_, ?_, ?_, ?_, ?_, ?_, ?_, ?_, ?_⟩ <;>
        simp [hp, WC.play_isPlaying, WC.play_frameBuffer, WC.play_closedFrames,
          WC.play_audioQueue, WC.play_closedAudio, WC.play_videoSeekPos,
          WC.play_audioSeekPos, WC.play_needsKeyframe, WC.play_currentTime,
          WC.play_mediaStartTime_emptyBuf,
          WC.pause_frameBuffer, WC.pause_closedFrames, WC.pause_audioQueue,
          WC.pause_closedAudio, WC.pause_videoSeekPos, WC.pause_audioSeekPos,
          WC.pause_needsKeyframe, WC.pause_currentTime]

/-- **C7 (counterexample).** The claim says the media position saved by
`pause()` equals the media time reference `play()` restores.  But when the
frame buffer's first frame lies ahead of the saved position (the normal
case right after a pause, and arbitrarily far ahead after a stale buffer),
`play()` overwrites the restored offset with that frame's timestamp: paused
at 1 s with the first buffered frame at 1.05 s, `play()` resumes at 1.05 s,
not 1 s — beyond any tick interval for a buffer far enough ahead. -/
theorem claim_C7_pause_play_counterexample :
    (let s : Player :=
      ⟨true, true, false, 0, [1050000], [], [], [], 0, 0, false, none, none,
        0, 1, 0, 0⟩
     (WC.pause 0 0 s).mediaStartTime = 1000000 ∧
     (WC.play 0 0 (WC.pause 0 0 s)).mediaTimeOffset = 21 / 20 ∧
     (WC.play 0 0 (WC.pause 0 0 s)).mediaTimeOffset ≠
       (WC.pause 0 0 s).mediaStartTime / 1000000) := by
  refine ⟨by norm_num [WC.pause], ?_, ?_⟩
  · norm_num [WC.pause, WC.play]
  · norm_num [WC.pause, WC.play]

/-- **C7 (amended).** `pause()` immediately followed by `play()` with no
intervening seek resumes at the media position `pause()` saved from the
clock formula, provided `play()`'s re-anchoring does not intervene: the
saved position must be nonzero and at or past the first buffered frame's
timestamp (otherwise `play()` jumps to that frame's timestamp), and, when
the pre-decoded audio buffer exists, inside `[0, duration]` (otherwise it
is clamped).  Without an audio clock, `play()` leaves the saved
`mediaStartTimeRef` untouched unconditionally. -/
theorem claim_C7_pause_play_amended (s : Player) (nowP nowA nowP2 nowA2 : ℚ)
    (hadj : s.frameBuffer.head? = none ∨
      ∃ f0, s.frameBuffer.head? = some f0 ∧
        s.mediaTimeOffset + (nowA - s.audioStartTime) ≠ 0 ∧
        ¬(s.mediaTimeOffset + (nowA - s.audioStartTime) < (f0 : ℚ) / 1000000))
    (hclamp : s.hasAudioBuf = false ∨
      (0 ≤ s.mediaTimeOffset + (nowA - s.audioStartTime) ∧
       s.mediaTimeOffset + (nowA - s.audioStartTime) ≤ s.audioBufDuration)) :
    (s.hasAudio = true →
      (WC.play nowP2 nowA2 (WC.pause nowP nowA s)).mediaTimeOffset =
        (WC.pause nowP nowA s).mediaStartTime / 1000000 ∧
      (WC.pause nowP nowA s).mediaStartTime / 1000000 =
        s.mediaTimeOffset + (nowA - s.audioStartTime)) ∧
    (s.hasAudio = false →
      (WC.play nowP2 nowA2 (WC.pause nowP nowA s)).mediaStartTime =
        (WC.pause nowP nowA s).mediaStartTime) := by
  obtain ⟨hp1, hp2, hp3, hp4, hp5⟩ := WC.pause_stable nowP nowA s
  constructor
  · intro ha
    have hsave : (WC.pause nowP nowA s).mediaStartTime =
        (s.mediaTimeOffset + (nowA - s.audioStartTime)) * 1000000 :=
      WC.pause_mediaStartTime_audio nowP nowA s ha
    have hdiv : (WC.pause nowP nowA s).mediaStartTime / 1000000 =
        s.mediaTimeOffset + (nowA - s.audioStartTime) := by
      rw [hsave]
      exact mul_div_cancel_right₀ _ (by norm_num)
    refine ⟨?_, hdiv⟩
    apply WC.play_offset nowP2 nowA2 (WC.pause nowP nowA s) hp1 (hp2.trans ha)
    · rw [hp5, hdiv]
      exact hadj
    · rw [hp3, hp4, hdiv]
      exact hclamp
  · intro ha
    exact WC.play_mediaStartTime_noAudio nowP2 nowA2 _ (hp2.trans ha)

/-- Witness for C7 (amended): paused at 1 s with the first buffered frame
at 0.5 s (already at or behind the position), no pre-decoded audio buffer —
`play()` resumes exactly at the saved position. -/
theorem claim_C7_pause_play_amended_witness :
    (let s : Player :=
      ⟨true, true, false, 0, [500000], [], [], [], 0, 0, false, none, none,
        0, 1, 0, 0⟩
     (s.hasAudio = true →
      (WC.play 3 7 (WC.pause 0 0 s)).mediaTimeOffset =
        (WC.pause 0 0 s).mediaStartTime / 1000000 ∧
      (WC.pause 0 0 s).mediaStartTime / 1000000 =
        s.mediaTimeOffset + (0 - s.audioStartTime)) ∧
     (s.hasAudio = false →
      (WC.play 3 7 (WC.pause 0 0 s)).mediaStartTime =
        (WC.pause 0 0 s).mediaStartTime)) :=
  claim_C7_pause_play_amended
    ⟨true, true, false, 0, [500000], [], [], [], 0, 0, false, none, none,
      0, 1, 0, 0⟩ 0 0 3 7
    (Or.inr ⟨500000, rfl, by norm_num, by norm_num⟩) (Or.inl rfl)

/-- **C10 (counterexample).** The two `chooseFrame` implementations are not
equivalent: at an equal-delta tie the linear scan of part_005 keeps the
earlier frame while the binary search of WebCodecsVideoPlayer can keep the
later one, so they return different frames and remove different stale
sets. -/
theorem claim_C10_refinement_counterexample :
    StrictlyIncreasing [0, 10, 20, 30, 40] ∧
    V5.chooseFrame [0, 10, 20, 30, 40] 15 = (some 10, [0], [10, 20, 30, 40]) ∧
    WC.chooseFrame [0, 10, 20, 30, 40] 15 = (some 20, [0, 10], [20, 30, 40]) ∧
    V5.chooseFrame [0, 10, 20, 30, 40] 15 ≠ WC.chooseFrame [0, 10, 20, 30, 40] 15 := by
  decide

/-- **C10 (amended).** For every frame buffer with strictly increasing
timestamps and every target for which no two frames are equidistant from
the target, the linear-scan and the binary-search `chooseFrame` agree
completely: same returned frame, same removed stale frames, same remaining
buffer. -/
theorem claim_C10_refinement_amended (buf : List Int) (t : Int)
    (hs : StrictlyIncreasing buf)
    (hnt : ∀ i, i < buf.length → ∀ j, j < buf.length →
      |t - tsAt buf i| = |t - tsAt buf j| → i = j) :
    V5.chooseFrame buf t = WC.chooseFrame buf t := by
  by_cases h : buf.isEmpty
  · simp [V5.chooseFrame, WC.chooseFrame, h]
  · have hlen : 0 < buf.length := by
      cases buf with
      | nil => exact absurd rfl h
      | cons a l => simp
    obtain ⟨r, hr, hrlen, hrmin⟩ := V5.scanLoop_spec buf t hlen hs
    obtain ⟨hidx, hmin⟩ := WC.chooseFrameIdx_spec buf t hlen hs
    have heq : r = WC.chooseFrameIdx buf t :=
      hnt r hrlen (WC.chooseFrameIdx buf t) hidx
        (le_antisymm (hrmin _ hidx) (hmin _ hrlen))
    simp [V5.chooseFrame, WC.chooseFrame, h, hr, heq]

/-- Witness for C10 (amended) on a concrete tie-free input. -/
theorem claim_C10_refinement_amended_witness :
    V5.chooseFrame [0, 10, 30] 12 = WC.chooseFrame [0, 10, 30] 12 :=
  claim_C10_refinement_amended [0, 10, 30] 12 (by decide) (by decide)

end TeslaPlayer

